import Mathlib

/-!
Shallow embedding of the manga-notifier bot (`src/bot.py`) core logic:
chapter extraction (the `TOP_CHAPTER_RE` regex search), name
normalization, URL validation, the persisted state model, and the
track / untrack / poll operations.

Python-specific externals are modelled as follows:
* strings are `List Char` / `String` (the source pages are ASCII; the
  regex character classes `[A-Z]`, `[a-z]`, `[0-9]`, `\d`, `\s` are
  modelled over their ASCII meanings);
* `BeautifulSoup(...).get_text("\n")` is the external markup-extraction
  collaborator; `parse_latest_chapter` here receives the rendered text
  it would produce;
* network fetches, the Discord channel and `json.load` are oracles /
  abstract outcomes passed in as parameters.
-/

/-- ASCII whitespace, the characters Python's `\s` and `str.strip()`
recognise in the ASCII range: space, tab, newline, carriage return,
form feed, vertical tab. -/
def isSpaceA (c : Char) : Bool :=
  c = ' ' || c = '\t' || c = '\n' || c = '\r' || c = '\x0b' || c = '\x0c'

/-- Greedy `\d{1,2}`: one or two digits, as many as possible. -/
def munchDay : List Char → Option (List Char × List Char)
  | [] => none
  | c1 :: rest =>
    if c1.isDigit then
      match rest with
      | c2 :: rest2 => if c2.isDigit then some ([c1, c2], rest2) else some ([c1], rest)
      | [] => some ([c1], [])
    else none

/-- One attempt of `TOP_CHAPTER_RE` anchored at the start of `s`:
`([A-Z][a-z]+ \d{1,2}, \d{4})\s+Ch\.\s*([0-9]+(?:\.[0-9]+)?)`.
Returns the two capture groups on success.  Every quantifier in the
pattern is followed by a character its class cannot match, so greedy
maximal munch is equivalent to Python's backtracking search here. -/
def matchAt (s : List Char) : Option (List Char × List Char) :=
  match s with
  | [] => none
  | c :: rest =>
    if c.isUpper then
      let p1 := rest.span Char.isLower
      if p1.1.isEmpty then none else
      match p1.2 with
      | ' ' :: r2 =>
        match munchDay r2 with
        | none => none
        | some (ds, r3) =>
          match r3 with
          | ',' :: ' ' :: r4 =>
            match r4 with
            | y1 :: y2 :: y3 :: y4 :: r5 =>
              if y1.isDigit && y2.isDigit && y3.isDigit && y4.isDigit then
                let p2 := r5.span isSpaceA
                if p2.1.isEmpty then none else
                match p2.2 with
                | 'C' :: 'h' :: '.' :: r7 =>
                  let p3 := r7.span isSpaceA
                  let p4 := p3.2.span Char.isDigit
                  if p4.1.isEmpty then none else
                  let g2 :=
                    match p4.2 with
                    | '.' :: r10 =>
                      let p5 := r10.span Char.isDigit
                      if p5.1.isEmpty then p4.1 else p4.1 ++ '.' :: p5.1
                    | _ => p4.1
                  some (c :: p1.1 ++ ' ' :: ds ++ ',' :: ' ' :: [y1, y2, y3, y4], g2)
                | _ => none
              else none
            | _ => none
          | _ => none
      | _ => none
    else none

/-- `re.search` semantics: try `matchAt` at every start position, left
to right, and return the groups of the first position that matches. -/
def searchRe : List Char → Option (List Char × List Char)
  | [] => none
  | c :: t =>
    match matchAt (c :: t) with
    | some r => some r
    | none => searchRe t

/-- Python `str.strip()` over ASCII whitespace. -/
def pyStrip (s : List Char) : List Char :=
  ((s.dropWhile isSpaceA).reverse.dropWhile isSpaceA).reverse

/-- Python `str.lower()` on one ASCII character: each basic latin
capital letter goes to its lower-case counterpart, everything else is
unchanged. -/
def lowerChar : Char → Char
  | 'A' => 'a'
  | 'B' => 'b'
  | 'C' => 'c'
  | 'D' => 'd'
  | 'E' => 'e'
  | 'F' => 'f'
  | 'G' => 'g'
  | 'H' => 'h'
  | 'I' => 'i'
  | 'J' => 'j'
  | 'K' => 'k'
  | 'L' => 'l'
  | 'M' => 'm'
  | 'N' => 'n'
  | 'O' => 'o'
  | 'P' => 'p'
  | 'Q' => 'q'
  | 'R' => 'r'
  | 'S' => 's'
  | 'T' => 't'
  | 'U' => 'u'
  | 'V' => 'v'
  | 'W' => 'w'
  | 'X' => 'x'
  | 'Y' => 'y'
  | 'Z' => 'z'
  | c => c

/-- Python `str.lower()` (ASCII). -/
def pyLower (s : List Char) : List Char := s.map lowerChar

/-- Python `str.replace(" ", "_")` (the pattern is a single character,
so it is a character map). -/
def pyReplaceSpace (s : List Char) : List Char :=
  s.map (fun c => if c = ' ' then '_' else c)

/-- `parse_latest_chapter`: first `TOP_CHAPTER_RE` match of the rendered
text, groups stripped; `none` when there is no match. -/
def parse_latest_chapter (text : String) : Option (String × String) :=
  match searchRe text.data with
  | none => none
  | some (g1, g2) => some ((pyStrip g1).asString, (pyStrip g2).asString)

/-- `normalize_name`: `name.strip().lower().replace(" ", "_")`. -/
def normalize_name (name : String) : String :=
  (pyReplaceSpace (pyLower (pyStrip name.data))).asString

/-- Character-list version of `str.startswith`. -/
def isPrefixL : List Char → List Char → Bool
  | [], _ => true
  | _ :: _, [] => false
  | c :: p, d :: s => c = d && isPrefixL p s

/-- `looks_like_viz_chapters_url`:
`url.startswith("https://www.viz.com/shonenjump/chapters/")`. -/
def looks_like_viz_chapters_url (url : String) : Bool :=
  isPrefixL "https://www.viz.com/shonenjump/chapters/".data url.data

/-! ## Association lists with Python-dict semantics

The persisted JSON state is a dict; Python dicts keep insertion order,
`d[k] = v` overwrites in place, and `d.pop(k, None)` removes the entry.
Keys are unique in an actual dict; the operations below mirror that on
association lists (first occurrence wins). -/

/-- Dict lookup: first entry with key `k`. -/
def alGet (k : String) : List (String × α) → Option α
  | [] => none
  | (k2, v) :: rest => if k2 = k then some v else alGet k rest

/-- Dict assignment `d[k] = v`: overwrite in place, else append. -/
def alSet (k : String) (v : α) : List (String × α) → List (String × α)
  | [] => [(k, v)]
  | (k2, v2) :: rest => if k2 = k then (k, v) :: rest else (k2, v2) :: alSet k v rest

/-- Dict removal `d.pop(k, None)`. -/
def alRemove (k : String) : List (String × α) → List (String × α)
  | [] => []
  | (k2, v) :: rest => if k2 = k then rest else (k2, v) :: alRemove k rest

/-- The keys, in order. -/
def alKeys (l : List (String × α)) : List String := l.map Prod.fst

/-- One `{"date": ..., "ch": ..., "url": ...}` record, the value stored
under a `latest:{name}` key of the state dict. -/
structure Observed where
  date : String
  ch : String
  url : String
deriving Repr, DecidableEq

/-- The persisted state.  The source keeps one flat dict with a
`"tracked"` key (name → url) and one `latest:{name}` key per observed
item; since `"tracked"` and the `latest:`-prefixed keys never collide
and the `latest:` prefix is injective in `name`, the equivalent
two-map form is used. -/
structure State where
  tracked : List (String × String)
  latest : List (String × Observed)
deriving Repr, DecidableEq

/-- The empty state (`load_state` of an absent file returns `{}`). -/
def emptyState : State := ⟨[], []⟩

/-- Observable effects of one operation, in program order. -/
inductive Event where
  | errorLog (name : String)
  | warnLog (name : String)
  | initLog (name : String)
  | okLog (name : String)
  | notifiedLog (name : String)
  | notify (name ch date url : String)
  | saved (st : State)
deriving Repr, DecidableEq

/-- Outcome of `fetch_html` for one URL: the rendered page text, or a
raised transport error. -/
inductive FetchResult where
  | fetchError
  | ok (text : String)
deriving Repr, DecidableEq

/-- The per-item body of the `poll_updates` loop (`src/bot.py` lines
108-139), including its `try/except`: a fetch error, a raised
`channel.send`, or a raised `save_state` is caught and logged as
`[ERROR] {name}`.  `notifyOk` says whether the `channel.send` call
would succeed and `saveOk` whether the `save_state` call in this
iteration would; `Event.saved` records each completed `save_state`
call.  When `save_state` raises, the in-memory dict mutation
`state[state_key] = ...` has already happened (it precedes the save in
the source), so the threaded state keeps the new value while no
`saved` event nor `[INIT]`/`[NOTIFIED]` line is produced — only
`[ERROR] {name}` from the handler. -/
def processItem (st : State) (name url : String) (fetch : FetchResult)
    (notifyOk saveOk : Bool) : State × List Event :=
  match fetch with
  | .fetchError => (st, [.errorLog name])
  | .ok text =>
    match parse_latest_chapter text with
    | none => (st, [.warnLog name])
    | some (d, c) =>
      match alGet name st.latest with
      | none =>
        let st2 : State := ⟨st.tracked, alSet name ⟨d, c, url⟩ st.latest⟩
        if saveOk then (st2, [.saved st2, .initLog name])
        else (st2, [.errorLog name])
      | some prev =>
        if prev.ch ≠ c || prev.date ≠ d then
          if notifyOk then
            let st2 : State := ⟨st.tracked, alSet name ⟨d, c, url⟩ st.latest⟩
            if saveOk then (st2, [.notify name c d url, .saved st2, .notifiedLog name])
            else (st2, [.notify name c d url, .errorLog name])
          else (st, [.errorLog name])
        else (st, [.okLog name])

/-- The `for name, url in tracked.items()` loop of `poll_updates`,
threading the in-memory state through the per-item bodies. -/
def pollItems (st : State) (items : List (String × String))
    (fetch : String → FetchResult) (notifyOk saveOk : String → Bool) :
    State × List Event :=
  match items with
  | [] => (st, [])
  | (name, url) :: rest =>
    let r1 := processItem st name url (fetch url) (notifyOk name) (saveOk name)
    let r2 := pollItems r1.1 rest fetch notifyOk saveOk
    (r2.1, r1.2 ++ r2.2)

/-- One whole `poll_updates` tick: no-op when nothing is tracked or the
notification channel cannot be resolved, otherwise the per-item sweep
over the tracked map in insertion order. -/
def poll_updates (st : State) (channelFound : Bool)
    (fetch : String → FetchResult) (notifyOk saveOk : String → Bool) :
    State × List Event :=
  if st.tracked.isEmpty then (st, [])
  else if channelFound then pollItems st st.tracked fetch notifyOk saveOk
  else (st, [])

/-- Result reported by the `/track` command. -/
inductive TrackResult where
  | invalidUrl
  | fetchFailed
  | parseFailed
  | added (ch date : String)
deriving Repr, DecidableEq

/-- The `/track` command body: URL-shape validation before anything
else, then fetch and parse (each failure returns with no state access),
then the single read-modify-write that records both the tracked entry
and the baseline observed value.  The `Bool` records whether
`save_state` was called. -/
def track (st : State) (name url : String) (fetch : FetchResult) :
    State × TrackResult × Bool :=
  let nn := normalize_name name
  if looks_like_viz_chapters_url url then
    match fetch with
    | .fetchError => (st, .fetchFailed, false)
    | .ok text =>
      match parse_latest_chapter text with
      | none => (st, .parseFailed, false)
      | some (d, c) =>
        let st2 : State := ⟨alSet nn url st.tracked, alSet nn ⟨d, c, url⟩ st.latest⟩
        (st2, .added c d, true)
  else (st, .invalidUrl, false)

/-- Result reported by the `/untrack` command. -/
inductive UntrackResult where
  | notFound
  | removed
deriving Repr, DecidableEq

/-- The `/untrack` command body: if the normalized name is not tracked,
reply "not tracking" and return without writing; otherwise remove both
the tracked entry and the `latest:{name}` entry and save.  The `Bool`
records whether `save_state` was called. -/
def untrack (st : State) (name : String) : State × UntrackResult × Bool :=
  let nn := normalize_name name
  match alGet nn st.tracked with
  | none => (st, .notFound, false)
  | some _ =>
    let st2 : State := ⟨alRemove nn st.tracked, alRemove nn st.latest⟩
    (st2, .removed, true)

/-! ## Persistence model

`load_state` checks `os.path.exists(STATE_FILE)` and returns `{}` when
the file is absent; otherwise it returns `json.load(f)`, which either
yields the parsed state or raises on unparseable contents — the
exception is not caught anywhere in the source.  `json` is the Python
standard library, so the file contents are modelled by their parse
outcome. -/

/-- The durable store: absent, present and parseable to a state, or
present but corrupt (contents `json.load` raises on). -/
inductive FileContent where
  | absent
  | wellFormed (st : State)
  | corrupt
deriving Repr, DecidableEq

/-- `load_state`: absent file ⇒ empty dict; corrupt file ⇒ the
`json.load` exception propagates (`Except.error`). -/
def load_state : FileContent → Except Unit State
  | .absent => .ok emptyState
  | .wellFormed st => .ok st
  | .corrupt => .error ()

/-- The whole `/untrack` handler starting from the durable store:
`load_state` first, then the command body.  The returned list holds the
states passed to `save_state`, in order (empty ⇔ no write happened). -/
def untrack_command (fc : FileContent) (name : String) :
    Except Unit UntrackResult × List State :=
  match load_state fc with
  | .error e => (.error e, [])
  | .ok st =>
    let r := untrack st name
    (.ok r.2.1, if r.2.2 then [r.1] else [])

/-- The whole `/track` handler starting from the durable store (the
source loads the state only after a successful fetch + parse). -/
def track_command (fc : FileContent) (name url : String) (fetch : FetchResult) :
    Except Unit TrackResult × List State :=
  if looks_like_viz_chapters_url url then
    match fetch with
    | .fetchError => (.ok .fetchFailed, [])
    | .ok text =>
      match parse_latest_chapter text with
      | none => (.ok .parseFailed, [])
      | some _ =>
        match load_state fc with
        | .error e => (.error e, [])
        | .ok st =>
          let r := track st name url fetch
          (.ok r.2.1, if r.2.2 then [r.1] else [])
  else (.ok .invalidUrl, [])

/-- JSON rendering of one observed-value record.  Mirrors
`json.dump`'s output shape for the stored dict values; string escaping
is elided (the only property used below is that a dict serializes to a
brace-delimited, hence nonempty, text). -/
def serializeObserved (o : Observed) : String :=
  "\x7b\"date\": \"" ++ o.date ++ "\", \"ch\": \"" ++ o.ch ++
    "\", \"url\": \"" ++ o.url ++ "\"\x7d"

/-- JSON rendering of a string-to-string map. -/
def serializeStrMap : List (String × String) → String
  | [] => ""
  | [(k, v)] => "\"" ++ k ++ "\": \"" ++ v ++ "\""
  | (k, v) :: rest => "\"" ++ k ++ "\": \"" ++ v ++ "\", " ++ serializeStrMap rest

/-- JSON rendering of the `latest:{name}` entries. -/
def serializeLatest : List (String × Observed) → String
  | [] => ""
  | [(k, v)] => "\"latest:" ++ k ++ "\": " ++ serializeObserved v
  | (k, v) :: rest =>
      "\"latest:" ++ k ++ "\": " ++ serializeObserved v ++ ", " ++ serializeLatest rest

/-- JSON rendering of the whole state dict, the text `json.dump`
writes into `STATE_FILE`. -/
def serializeState (st : State) : String :=
  "\x7b\"tracked\": \x7b" ++ serializeStrMap st.tracked ++ "\x7d" ++
    (if st.latest.isEmpty then "" else ", " ++ serializeLatest st.latest) ++ "\x7d"

/-- `save_state` opens `STATE_FILE` with mode `"w"` and then
`json.dump`s into it.  Mode `"w"` truncates the file before any byte of
the new serialization is written, so the sequence of file contents a
reader (or a crash) can observe during one save call is: the old
contents, the truncated empty file, the completed new contents. -/
def save_state_trace (old : String) (st : State) : List String :=
  [old, "", serializeState st]

/-! ## Reconciler reference definition (from the spec)

The spec's §4.2 pure decision function, written from the spec's words;
the claims compare the per-item behaviour of `poll_updates` against
it. -/

/-- Reconcile outcome, per the spec. -/
inductive ReconcileOutcome where
  | baseline
  | unchanged
  | changed
deriving Repr, DecidableEq

/-- Modelled from the spec: `reconcile(stored, fresh, url)`.  Absent
stored value ⇒ `baseline` (the spec's Initialize) with the fresh value
as new value; stored `(date, ch)` jointly equal to fresh ⇒ `unchanged`;
otherwise `changed` with the fresh value (url included) replacing the
stored one wholesale. -/
def reconcile (stored : Option Observed) (fresh : String × String) (url : String) :
    ReconcileOutcome × Option Observed :=
  match stored with
  | none => (.baseline, some ⟨fresh.1, fresh.2, url⟩)
  | some prev =>
    if prev.date = fresh.1 ∧ prev.ch = fresh.2 then (.unchanged, some prev)
    else (.changed, some ⟨fresh.1, fresh.2, url⟩)

/-! ## Reachable states -/

/-- States reachable from the empty store through the normal
operations: `/track`, `/untrack`, and `poll_updates` ticks with
arbitrary fetch / notification outcomes. -/
inductive Reachable : State → Prop
  | base : Reachable emptyState
  | trackStep (st : State) (name url : String) (f : FetchResult) :
      Reachable st → Reachable (track st name url f).1
  | untrackStep (st : State) (name : String) :
      Reachable st → Reachable (untrack st name).1
  | pollStep (st : State) (ch : Bool) (f : String → FetchResult) (n s : String → Bool) :
      Reachable st → Reachable (poll_updates st ch f n s).1

/-! ## Association-list lemmas -/

theorem alKeys_nil : alKeys (α := α) [] = [] := rfl

theorem alKeys_cons (k : String) (v : α) (l : List (String × α)) :
    alKeys ((k, v) :: l) = k :: alKeys l := rfl

theorem alGet_eq_none_iff (k : String) (l : List (String × α)) :
    alGet k l = none ↔ k ∉ alKeys l := by
  induction l with
  | nil => simp [alGet, alKeys]
  | cons p rest ih =>
    obtain ⟨k2, v⟩ := p
    by_cases h : k2 = k
    · subst h
      simp [alGet, alKeys_cons]
    · simp [alGet, h, alKeys_cons, ih, Ne.symm h]

theorem alGet_isSome_of_mem (k : String) (l : List (String × α))
    (h : k ∈ alKeys l) : ∃ v, alGet k l = some v := by
  rcases he : alGet k l with _ | v
  · exact absurd h ((alGet_eq_none_iff k l).mp he)
  · exact ⟨v, rfl⟩

theorem alKeys_alSet (k : String) (v : α) (l : List (String × α)) :
    alKeys (alSet k v l) =
      if k ∈ alKeys l then alKeys l else alKeys l ++ [k] := by
  induction l with
  | nil => simp [alSet, alKeys]
  | cons p rest ih =>
    obtain ⟨k2, v2⟩ := p
    by_cases h : k2 = k
    · subst h
      simp [alSet, alKeys_cons]
    · simp only [alSet, if_neg h, alKeys_cons, ih, List.mem_cons]
      by_cases hm : k ∈ alKeys rest
      · simp [hm, Ne.symm h]
      · simp [hm, Ne.symm h]

theorem mem_alKeys_alSet_self (k : String) (v : α) (l : List (String × α)) :
    k ∈ alKeys (alSet k v l) := by
  rw [alKeys_alSet]
  by_cases h : k ∈ alKeys l <;> simp [h]

theorem mem_alKeys_alSet_of_mem (k x : String) (v : α) (l : List (String × α))
    (h : x ∈ alKeys l) : x ∈ alKeys (alSet k v l) := by
  rw [alKeys_alSet]
  by_cases hm : k ∈ alKeys l <;> simp [hm, h]

theorem eq_or_mem_of_mem_alKeys_alSet (k x : String) (v : α) (l : List (String × α))
    (h : x ∈ alKeys (alSet k v l)) : x = k ∨ x ∈ alKeys l := by
  rw [alKeys_alSet] at h
  by_cases hm : k ∈ alKeys l
  · rw [if_pos hm] at h
    exact Or.inr h
  · rw [if_neg hm] at h
    rcases List.mem_append.mp h with h2 | h2
    · exact Or.inr h2
    · exact Or.inl (List.mem_singleton.mp h2)

theorem nodup_alKeys_alSet (k : String) (v : α) (l : List (String × α))
    (h : (alKeys l).Nodup) : (alKeys (alSet k v l)).Nodup := by
  rw [alKeys_alSet]
  by_cases hm : k ∈ alKeys l
  · simpa [hm] using h
  · simp [hm, List.nodup_append, h]

theorem alKeys_alRemove_sublist (k : String) (l : List (String × α)) :
    List.Sublist (alKeys (alRemove k l)) (alKeys l) := by
  induction l with
  | nil => simp [alRemove, alKeys]
  | cons p rest ih =>
    obtain ⟨k2, v⟩ := p
    by_cases h : k2 = k
    · simp [alRemove, h, alKeys_cons, List.sublist_cons_self k2 (alKeys rest)]
    · simpa [alRemove, h, alKeys_cons] using ih.cons₂ k2

theorem nodup_alKeys_alRemove (k : String) (l : List (String × α))
    (h : (alKeys l).Nodup) : (alKeys (alRemove k l)).Nodup :=
  (alKeys_alRemove_sublist k l).nodup h

theorem alGet_alRemove_self (k : String) (l : List (String × α))
    (h : (alKeys l).Nodup) : alGet k (alRemove k l) = none := by
  induction l with
  | nil => simp [alRemove, alGet]
  | cons p rest ih =>
    obtain ⟨k2, v⟩ := p
    rw [alKeys_cons, List.nodup_cons] at h
    by_cases he : k2 = k
    · subst he
      rw [alRemove, if_pos rfl]
      exact (alGet_eq_none_iff k2 rest).mpr h.1
    · rw [alRemove, if_neg he, alGet, if_neg he]
      exact ih h.2

theorem mem_alKeys_alRemove_of_ne (k x : String) (l : List (String × α))
    (hx : x ∈ alKeys l) (hne : x ≠ k) : x ∈ alKeys (alRemove k l) := by
  induction l with
  | nil => simp [alKeys] at hx
  | cons p rest ih =>
    obtain ⟨k2, v⟩ := p
    rw [alKeys_cons, List.mem_cons] at hx
    by_cases he : k2 = k
    · subst he
      rw [alRemove, if_pos rfl]
      rcases hx with h2 | h2
      · exact absurd h2.symm (Ne.symm hne)
      · exact h2
    · rw [alRemove, if_neg he, alKeys_cons, List.mem_cons]
      rcases hx with h2 | h2
      · exact Or.inl h2
      · exact Or.inr (ih h2)

theorem alGet_alSet_self (k : String) (v : α) (l : List (String × α)) :
    alGet k (alSet k v l) = some v := by
  induction l with
  | nil => simp [alSet, alGet]
  | cons p rest ih =>
    obtain ⟨k2, v2⟩ := p
    by_cases h : k2 = k
    · simp [alSet, h, alGet]
    · simp [alSet, h, alGet, ih]

theorem length_alSet_of_mem (k : String) (v : α) (l : List (String × α))
    (h : alGet k l ≠ none) : (alSet k v l).length = l.length := by
  induction l with
  | nil => simp [alGet] at h
  | cons p rest ih =>
    obtain ⟨k2, v2⟩ := p
    by_cases he : k2 = k
    · simp [alSet, he]
    · rw [alGet, if_neg he] at h
      simp [alSet, he, ih h]

/-! ## State invariant under the normal operations -/

theorem processItem_latest_cases (st : State) (n u : String) (f : FetchResult) (b b2 : Bool) :
    (processItem st n u f b b2).1 = st ∨
      ∃ v, (processItem st n u f b b2).1 = ⟨st.tracked, alSet n v st.latest⟩ := by
  unfold processItem
  repeat' split
  all_goals first
    | exact Or.inl rfl
    | exact Or.inr ⟨_, rfl⟩

theorem processItem_fst (st : State) (n u : String) (f : FetchResult) (b b2 : Bool) :
    (processItem st n u f b b2).1.tracked = st.tracked ∧
      (∀ x ∈ alKeys (processItem st n u f b b2).1.latest, x = n ∨ x ∈ alKeys st.latest) ∧
      ((alKeys st.latest).Nodup → (alKeys (processItem st n u f b b2).1.latest).Nodup) := by
  rcases processItem_latest_cases st n u f b b2 with h | ⟨v, h⟩
  · rw [h]
    exact ⟨rfl, fun x hx => Or.inr hx, fun hn => hn⟩
  · rw [h]
    exact ⟨rfl, fun x hx => eq_or_mem_of_mem_alKeys_alSet n x v st.latest hx,
      fun hn => nodup_alKeys_alSet n v st.latest hn⟩

/-- The state invariant: tracked and observed keys are duplicate-free
and every observed key is currently tracked. -/
def StateInv (st : State) : Prop :=
  (alKeys st.tracked).Nodup ∧ (alKeys st.latest).Nodup ∧
    ∀ k ∈ alKeys st.latest, k ∈ alKeys st.tracked

theorem pollItems_inv (items : List (String × String)) (st : State)
    (f : String → FetchResult) (n s : String → Bool)
    (hinv : StateInv st) (hmem : ∀ p ∈ items, p.1 ∈ alKeys st.tracked) :
    StateInv (pollItems st items f n s).1 ∧
      (pollItems st items f n s).1.tracked = st.tracked := by
  induction items generalizing st with
  | nil => exact ⟨hinv, rfl⟩
  | cons p rest ih =>
    obtain ⟨name, url⟩ := p
    have hp := processItem_fst st name url (f url) (n name) (s name)
    have hred : (pollItems st ((name, url) :: rest) f n s).1 =
        (pollItems (processItem st name url (f url) (n name) (s name)).1 rest f n s).1 := rfl
    have hinv2 : StateInv (processItem st name url (f url) (n name) (s name)).1 := by
      refine ⟨hp.1 ▸ hinv.1, hp.2.2 hinv.2.1, ?_⟩
      intro k hk
      rw [hp.1]
      rcases hp.2.1 k hk with h | h
      · exact h ▸ hmem (name, url) (List.mem_cons_self _ _)
      · exact hinv.2.2 k h
    have hmem2 : ∀ q ∈ rest,
        q.1 ∈ alKeys (processItem st name url (f url) (n name) (s name)).1.tracked := by
      intro q hq
      rw [hp.1]
      exact hmem q (List.mem_cons_of_mem _ hq)
    have hrec := ih (processItem st name url (f url) (n name) (s name)).1 hinv2 hmem2
    rw [hred]
    exact ⟨hrec.1, hrec.2.trans hp.1⟩

theorem reachable_inv (st : State) (h : Reachable st) : StateInv st := by
  induction h with
  | base => exact ⟨List.nodup_nil, List.nodup_nil, by simp [emptyState, alKeys]⟩
  | trackStep st name url f _ ih =>
    unfold track
    split
    · split
      · exact ih
      · split
        · exact ih
        · refine ⟨nodup_alKeys_alSet _ _ _ ih.1, nodup_alKeys_alSet _ _ _ ih.2.1, ?_⟩
          intro k hk
          rcases eq_or_mem_of_mem_alKeys_alSet _ k _ _ hk with h | h
          · exact h ▸ mem_alKeys_alSet_self _ _ _
          · exact mem_alKeys_alSet_of_mem _ _ _ _ (ih.2.2 k h)
    · exact ih
  | untrackStep st name _ ih =>
    rcases hg : alGet (normalize_name name) st.tracked with _ | u
    · have he : (untrack st name).1 = st := by
        simp [untrack, hg]
      rw [he]
      exact ih
    · have he : (untrack st name).1 =
          ⟨alRemove (normalize_name name) st.tracked,
            alRemove (normalize_name name) st.latest⟩ := by
        simp [untrack, hg]
      rw [he]
      refine ⟨nodup_alKeys_alRemove _ _ ih.1, nodup_alKeys_alRemove _ _ ih.2.1, ?_⟩
      intro k hk
      have hmem : k ∈ alKeys st.latest := (alKeys_alRemove_sublist _ _).mem hk
      have hne : k ≠ normalize_name name := by
        intro he2
        have h0 := alGet_alRemove_self (normalize_name name) st.latest ih.2.1
        rw [alGet_eq_none_iff] at h0
        exact h0 (he2 ▸ hk)
      exact mem_alKeys_alRemove_of_ne _ _ _ (ih.2.2 k hmem) hne
  | pollStep st ch f n s _ ih =>
    unfold poll_updates
    split
    · exact ih
    · split
      · exact (pollItems_inv st.tracked st f n s ih
          (fun p hp => List.mem_map_of_mem Prod.fst hp)).1
      · exact ih

/-! ## First-match characterization of the regex search -/

theorem searchRe_cons (c : Char) (t : List Char) :
    searchRe (c :: t) =
      match matchAt (c :: t) with
      | some r => some r
      | none => searchRe t := rfl

theorem searchRe_eq_none_iff (s : List Char) :
    searchRe s = none ↔ ∀ i, matchAt (s.drop i) = none := by
  induction s with
  | nil =>
    simp only [searchRe, List.drop_nil, true_iff]
    intro i
    rfl
  | cons c t ih =>
    rw [searchRe_cons]
    rcases hm : matchAt (c :: t) with _ | r
    · simp only
      constructor
      · intro h i
        cases i with
        | zero => simpa using hm
        | succ j =>
          rw [List.drop_succ_cons]
          exact (ih.mp h) j
      · intro h
        exact ih.mpr fun j => by simpa [List.drop_succ_cons] using h (j + 1)
    · simp only
      constructor
      · intro h
        cases h
      · intro h
        have h0 := h 0
        rw [List.drop_zero, hm] at h0
        cases h0

theorem searchRe_first (s : List Char) (p : List Char × List Char)
    (h : searchRe s = some p) :
    ∃ i, matchAt (s.drop i) = some p ∧ ∀ j < i, matchAt (s.drop j) = none := by
  induction s with
  | nil => cases h
  | cons c t ih =>
    rw [searchRe_cons] at h
    rcases hm : matchAt (c :: t) with _ | r
    · rw [hm] at h
      simp only at h
      rcases ih h with ⟨i, h1, h2⟩
      refine ⟨i + 1, by simpa [List.drop_succ_cons] using h1, ?_⟩
      intro j hj
      cases j with
      | zero => simpa using hm
      | succ j2 =>
        rw [List.drop_succ_cons]
        exact h2 j2 (Nat.lt_of_succ_lt_succ hj)
    · rw [hm] at h
      simp only at h
      refine ⟨0, ?_, ?_⟩
      · rw [List.drop_zero, hm, h]
      · intro j hj
        exact absurd hj (Nat.not_lt_zero j)

/-! ## Branch equations of the per-item poll body -/

theorem processItem_fetchError (st : State) (name url : String) (b b2 : Bool) :
    processItem st name url .fetchError b b2 = (st, [.errorLog name]) := rfl

theorem processItem_noParse (st : State) (name url text : String) (b b2 : Bool)
    (hp : parse_latest_chapter text = none) :
    processItem st name url (.ok text) b b2 = (st, [.warnLog name]) := by
  simp [processItem, hp]

theorem processItem_baseline (st : State) (name url text d c : String) (b : Bool)
    (hp : parse_latest_chapter text = some (d, c))
    (hs : alGet name st.latest = none) :
    processItem st name url (.ok text) b true =
      (⟨st.tracked, alSet name ⟨d, c, url⟩ st.latest⟩,
       [.saved ⟨st.tracked, alSet name ⟨d, c, url⟩ st.latest⟩, .initLog name]) := by
  simp [processItem, hp, hs]

theorem processItem_baseline_saveFailed (st : State) (name url text d c : String)
    (b : Bool) (hp : parse_latest_chapter text = some (d, c))
    (hs : alGet name st.latest = none) :
    processItem st name url (.ok text) b false =
      (⟨st.tracked, alSet name ⟨d, c, url⟩ st.latest⟩, [.errorLog name]) := by
  simp [processItem, hp, hs]

theorem processItem_unchanged (st : State) (name url text d c : String) (b b2 : Bool)
    (prev : Observed) (hp : parse_latest_chapter text = some (d, c))
    (hs : alGet name st.latest = some prev)
    (hd : prev.date = d) (hc : prev.ch = c) :
    processItem st name url (.ok text) b b2 = (st, [.okLog name]) := by
  simp [processItem, hp, hs, hd, hc]

theorem processItem_changed_sent (st : State) (name url text d c : String)
    (prev : Observed) (hp : parse_latest_chapter text = some (d, c))
    (hs : alGet name st.latest = some prev)
    (hne : ¬(prev.date = d ∧ prev.ch = c)) :
    processItem st name url (.ok text) true true =
      (⟨st.tracked, alSet name ⟨d, c, url⟩ st.latest⟩,
       [.notify name c d url,
        .saved ⟨st.tracked, alSet name ⟨d, c, url⟩ st.latest⟩,
        .notifiedLog name]) := by
  have hbo : (decide (prev.ch ≠ c) || decide (prev.date ≠ d)) = true := by
    by_cases h1 : prev.ch = c
    · have h2 : prev.date ≠ d := fun h2 => hne ⟨h2, h1⟩
      simp [h1, h2]
    · simp [h1]
  simp [processItem, hp, hs, hbo]
  exact fun h1 h2 => hne ⟨h2, h1⟩

theorem processItem_changed_saveFailed (st : State) (name url text d c : String)
    (prev : Observed) (hp : parse_latest_chapter text = some (d, c))
    (hs : alGet name st.latest = some prev)
    (hne : ¬(prev.date = d ∧ prev.ch = c)) :
    processItem st name url (.ok text) true false =
      (⟨st.tracked, alSet name ⟨d, c, url⟩ st.latest⟩,
       [.notify name c d url, .errorLog name]) := by
  have hbo : (decide (prev.ch ≠ c) || decide (prev.date ≠ d)) = true := by
    by_cases h1 : prev.ch = c
    · have h2 : prev.date ≠ d := fun h2 => hne ⟨h2, h1⟩
      simp [h1, h2]
    · simp [h1]
  simp [processItem, hp, hs, hbo]
  exact fun h1 h2 => hne ⟨h2, h1⟩

theorem processItem_changed_sendFailed (st : State) (name url text d c : String)
    (b2 : Bool) (prev : Observed) (hp : parse_latest_chapter text = some (d, c))
    (hs : alGet name st.latest = some prev)
    (hne : ¬(prev.date = d ∧ prev.ch = c)) :
    processItem st name url (.ok text) false b2 = (st, [.errorLog name]) := by
  have hbo : (decide (prev.ch ≠ c) || decide (prev.date ≠ d)) = true := by
    by_cases h1 : prev.ch = c
    · have h2 : prev.date ≠ d := fun h2 => hne ⟨h2, h1⟩
      simp [h1, h2]
    · simp [h1]
  simp [processItem, hp, hs, hbo]
  exact fun h1 h2 => hne ⟨h2, h1⟩

/-! ## Per-item log accounting (for the isolation claim) -/

/-- The one terminal per-item log line each loop body prints
(`[ERROR]`, `[WARN]`, `[INIT]`, `[OK]`, `[NOTIFIED]`), tagged with the
item name. -/
def itemLogName : Event → Option String
  | .errorLog n => some n
  | .warnLog n => some n
  | .initLog n => some n
  | .okLog n => some n
  | .notifiedLog n => some n
  | .notify _ _ _ _ => none
  | .saved _ => none

theorem processItem_log (st : State) (n u : String) (f : FetchResult) (b b2 : Bool) :
    (processItem st n u f b b2).2.filterMap itemLogName = [n] := by
  unfold processItem
  repeat' split
  all_goals simp [itemLogName]

theorem pollItems_cons (st : State) (name url : String)
    (rest : List (String × String)) (f : String → FetchResult) (n s : String → Bool) :
    pollItems st ((name, url) :: rest) f n s =
      ((pollItems (processItem st name url (f url) (n name) (s name)).1 rest f n s).1,
       (processItem st name url (f url) (n name) (s name)).2 ++
         (pollItems (processItem st name url (f url) (n name) (s name)).1 rest f n s).2) := rfl

theorem pollItems_logs (items : List (String × String)) (st : State)
    (f : String → FetchResult) (n s : String → Bool) :
    (pollItems st items f n s).2.filterMap itemLogName = items.map Prod.fst := by
  induction items generalizing st with
  | nil => rfl
  | cons p rest ih =>
    obtain ⟨name, url⟩ := p
    rw [pollItems_cons]
    simp only [List.filterMap_append, processItem_log, ih, List.map_cons]
    rfl

theorem pollItems_error_mem (items : List (String × String)) (st : State)
    (f : String → FetchResult) (n s : String → Bool) (name url : String)
    (hmem : (name, url) ∈ items) (hf : f url = .fetchError) :
    Event.errorLog name ∈ (pollItems st items f n s).2 := by
  induction items generalizing st with
  | nil => cases hmem
  | cons p rest ih =>
    obtain ⟨n2, u2⟩ := p
    rw [pollItems_cons]
    simp only [List.mem_append]
    rcases List.mem_cons.mp hmem with he | hm
    · left
      cases he
      rw [hf, processItem_fetchError]
      exact List.mem_singleton_self _
    · right
      exact ih _ hm

/-! ## Claim theorems -/

/-- Claim C1, counterexample.  Stored value Ch. 1171, page now shows
Ch. 1172 (a Changed outcome).  When the notification send fails, the
resulting state still holds the OLD value Ch. 1171 — the new
ObservedValue was never persisted, contradicting "the already-persisted
ObservedValue update is not rolled back … the stored value remains the
fresh one".  And in the successful run the `notify` event comes BEFORE
the `saved` event, contradicting "persists … before emitting the
notification event". -/
theorem notify_failure_loses_update_cex :
    processItem ⟨[("one_piece", "u")], [("one_piece", ⟨"January 18, 2026", "1171", "u"⟩)]⟩
        "one_piece" "u" (.ok "January 25, 2026 Ch. 1172") false true =
      (⟨[("one_piece", "u")], [("one_piece", ⟨"January 18, 2026", "1171", "u"⟩)]⟩,
       [.errorLog "one_piece"]) ∧
    processItem ⟨[("one_piece", "u")], [("one_piece", ⟨"January 18, 2026", "1171", "u"⟩)]⟩
        "one_piece" "u" (.ok "January 25, 2026 Ch. 1172") true true =
      (⟨[("one_piece", "u")], [("one_piece", ⟨"January 25, 2026", "1172", "u"⟩)]⟩,
       [.notify "one_piece" "1172" "January 25, 2026" "u",
        .saved ⟨[("one_piece", "u")], [("one_piece", ⟨"January 25, 2026", "1172", "u"⟩)]⟩,
        .notifiedLog "one_piece"]) := by
  constructor <;> decide

/-- Claim C1, amended: on a Changed outcome the notification is
emitted FIRST and the new ObservedValue persisted after it; if the
notification send fails, the update is NOT persisted — the stored value
remains the previous one — and the change is notified again on the next
cycle. -/
theorem changed_notify_then_persist (st : State) (name url text d c : String)
    (sOk : Bool) (prev : Observed) (hp : parse_latest_chapter text = some (d, c))
    (hs : alGet name st.latest = some prev)
    (hne : ¬(prev.date = d ∧ prev.ch = c)) :
    processItem st name url (.ok text) true true =
      (⟨st.tracked, alSet name ⟨d, c, url⟩ st.latest⟩,
       [.notify name c d url,
        .saved ⟨st.tracked, alSet name ⟨d, c, url⟩ st.latest⟩,
        .notifiedLog name]) ∧
    processItem st name url (.ok text) false sOk = (st, [.errorLog name]) ∧
    Event.notify name c d url ∈
      (processItem (processItem st name url (.ok text) false sOk).1
        name url (.ok text) true true).2 := by
  have h1 := processItem_changed_sent st name url text d c prev hp hs hne
  have h2 := processItem_changed_sendFailed st name url text d c sOk prev hp hs hne
  refine ⟨h1, h2, ?_⟩
  rw [h2]
  show Event.notify name c d url ∈ (processItem st name url (.ok text) true true).2
  rw [h1]
  exact List.mem_cons_self _ _

theorem changed_notify_then_persist_witness :
    processItem ⟨[("a", "u")], [("a", ⟨"May 4, 2025", "84", "u"⟩)]⟩ "a" "u"
        (.ok "May 11, 2025 Ch. 85") false true =
      (⟨[("a", "u")], [("a", ⟨"May 4, 2025", "84", "u"⟩)]⟩, [.errorLog "a"]) :=
  (changed_notify_then_persist ⟨[("a", "u")], [("a", ⟨"May 4, 2025", "84", "u"⟩)]⟩
    "a" "u" "May 11, 2025 Ch. 85" "May 11, 2025" "85" true
    ⟨"May 4, 2025", "84", "u"⟩ (by decide) (by decide) (by decide)).2.1

/-- Claim C2: the per-item decision of the poll cycle coincides with
the spec's Reconciler reference `reconcile` in all three cases: stored
value absent ⇒ Initialize (fresh value persisted as baseline, no
notification event); stored `(date, ch)` jointly equal to the fresh
pair ⇒ Unchanged (no save, no notification, state untouched);
otherwise ⇒ Changed (stored value replaced wholesale by exactly the
fresh value, url included, and a notification emitted). -/
theorem poll_item_matches_reconciler (st : State) (name url text d c : String)
    (nOk sOk : Bool) (hp : parse_latest_chapter text = some (d, c)) :
    (alGet name st.latest = none →
      reconcile (alGet name st.latest) (d, c) url = (.baseline, some ⟨d, c, url⟩) ∧
      processItem st name url (.ok text) nOk true =
        (⟨st.tracked, alSet name ⟨d, c, url⟩ st.latest⟩,
         [.saved ⟨st.tracked, alSet name ⟨d, c, url⟩ st.latest⟩, .initLog name])) ∧
    (∀ prev, alGet name st.latest = some prev → prev.date = d ∧ prev.ch = c →
      reconcile (alGet name st.latest) (d, c) url = (.unchanged, some prev) ∧
      processItem st name url (.ok text) nOk sOk = (st, [.okLog name])) ∧
    (∀ prev, alGet name st.latest = some prev → ¬(prev.date = d ∧ prev.ch = c) →
      reconcile (alGet name st.latest) (d, c) url = (.changed, some ⟨d, c, url⟩) ∧
      processItem st name url (.ok text) true true =
        (⟨st.tracked, alSet name ⟨d, c, url⟩ st.latest⟩,
         [.notify name c d url,
          .saved ⟨st.tracked, alSet name ⟨d, c, url⟩ st.latest⟩,
          .notifiedLog name])) := by
  refine ⟨?_, ?_, ?_⟩
  · intro hs
    rw [hs]
    exact ⟨rfl, processItem_baseline st name url text d c nOk hp hs⟩
  · rintro prev hs ⟨hd, hc⟩
    rw [hs]
    constructor
    · simp [reconcile, hd, hc]
    · exact processItem_unchanged st name url text d c nOk sOk prev hp hs hd hc
  · intro prev hs hne
    rw [hs]
    constructor
    · simp only [reconcile]
      rw [if_neg hne]
    · exact processItem_changed_sent st name url text d c prev hp hs hne

theorem poll_item_matches_reconciler_witness :
    processItem ⟨[("b", "v")], []⟩ "b" "v" (.ok "March 2, 2024 Ch. 12") true true =
      (⟨[("b", "v")], [("b", ⟨"March 2, 2024", "12", "v"⟩)]⟩,
       [.saved ⟨[("b", "v")], [("b", ⟨"March 2, 2024", "12", "v"⟩)]⟩, .initLog "b"]) := by
  have h := ((poll_item_matches_reconciler ⟨[("b", "v")], []⟩ "b" "v"
      "March 2, 2024 Ch. 12" "March 2, 2024" "12" true true (by decide)).1 (by decide)).2
  exact h.trans (by decide)

/-- Claim C3, counterexample.  `TOP_CHAPTER_RE` requires `\s+` — at
least one whitespace character — between the date and the chapter
marker, so a date immediately followed by `Ch.` does NOT match
(contradicting "an input where the date is immediately followed by the
chapter marker with no intervening whitespace still matches"); and the
date part is `[A-Z][a-z]+`, any capitalized alphabetic word, so a
non-month word like "Veber" DOES match (contradicting "a match whose
capitalized word is not a real month name does not"). -/
theorem extractor_pattern_cex :
    parse_latest_chapter "January 18, 2026Ch. 1171" = none ∧
    parse_latest_chapter "Veber 18, 2026 Ch. 5" = some ("Veber 18, 2026", "5") := by
  constructor <;> decide

/-- Claim C3, amended: `parse_latest_chapter` returns the (stripped)
capture groups of the first — in document order — position of the text
where the pattern matches, and returns `none`, as a normal value,
exactly when no position matches; the pattern being: a capitalized
alphabetic word (an uppercase letter followed by lowercase letters, not
validated against real month names), a space, a 1–2 digit day, ", ", a
4-digit year, then one or more whitespace characters (whitespace is
required, not optional), the literal "Ch.", optional whitespace, and a
numeric chapter token (integer or decimal). -/
theorem extract_first_match (text : String) :
    (parse_latest_chapter text = none ↔ ∀ i, matchAt (text.data.drop i) = none) ∧
    (∀ g1 g2, searchRe text.data = some (g1, g2) →
      parse_latest_chapter text = some ((pyStrip g1).asString, (pyStrip g2).asString) ∧
      ∃ i, matchAt (text.data.drop i) = some (g1, g2) ∧
        ∀ j < i, matchAt (text.data.drop j) = none) := by
  have hpn : parse_latest_chapter text = none ↔ searchRe text.data = none := by
    unfold parse_latest_chapter
    rcases searchRe text.data with _ | ⟨g1, g2⟩ <;> simp
  refine ⟨hpn.trans (searchRe_eq_none_iff text.data), ?_⟩
  intro g1 g2 hs
  constructor
  · simp [parse_latest_chapter, hs]
  · exact searchRe_first text.data (g1, g2) hs

theorem extract_first_match_witness :
    parse_latest_chapter "January 18, 2026 Ch. 1171 FREE" =
      some ("January 18, 2026", "1171") := by
  have h := ((extract_first_match "January 18, 2026 Ch. 1171 FREE").2
      "January 18, 2026".data "1171".data (by decide)).1
  exact h.trans (by decide)

/-- Claim C4, code evaluation at the failing scenario.  `save_state`
opens the store with mode `"w"`, which truncates in place before
`json.dump` writes, so a reader (or a crash) during the save replacing
one state's serialization by another's can observe the empty file —
a content that is neither the complete previous State nor the complete
new State.  The spec's all-or-nothing invariant is the clear intent;
the in-place truncating write is the slip. -/
theorem save_state_not_atomic :
    "" ∈ save_state_trace (serializeState ⟨[("one_piece", "u")], []⟩)
        ⟨[("one_piece", "u"), ("naruto", "v")], []⟩ ∧
    "" ≠ serializeState ⟨[("one_piece", "u")], []⟩ ∧
    "" ≠ serializeState ⟨[("one_piece", "u"), ("naruto", "v")], []⟩ := by
  refine ⟨?_, by decide, by decide⟩
  simp [save_state_trace]

/-- Claim C5: `/track` is all-or-nothing.  A URL failing the
source-shape validation fails the operation with the state unchanged
and nothing saved, and the result does not depend on any fetch outcome
(no fetch is attempted); with a valid URL, a fetch error or an
extraction miss fails the operation with the state unchanged and
nothing saved (for the command as a whole, no write to the store);
only full success writes, recording both the tracked entry and the
baseline observed value in one save. -/
theorem track_all_or_nothing (st : State) (name url : String) :
    (looks_like_viz_chapters_url url = false →
      (∀ f : FetchResult, track st name url f = (st, .invalidUrl, false)) ∧
      (∀ f : FetchResult, track_command (.wellFormed st) name url f = (.ok .invalidUrl, []))) ∧
    (looks_like_viz_chapters_url url = true →
      track st name url .fetchError = (st, .fetchFailed, false) ∧
      track_command (.wellFormed st) name url .fetchError = (.ok .fetchFailed, []) ∧
      (∀ text, parse_latest_chapter text = none →
        track st name url (.ok text) = (st, .parseFailed, false) ∧
        track_command (.wellFormed st) name url (.ok text) = (.ok .parseFailed, [])) ∧
      (∀ text d c, parse_latest_chapter text = some (d, c) →
        track st name url (.ok text) =
          (⟨alSet (normalize_name name) url st.tracked,
            alSet (normalize_name name) ⟨d, c, url⟩ st.latest⟩, .added c d, true))) := by
  constructor
  · intro hv
    constructor
    · intro f
      simp [track, hv]
    · intro f
      simp [track_command, hv]
  · intro hv
    refine ⟨by simp [track, hv], by simp [track_command, track, hv, load_state], ?_, ?_⟩
    · intro text hp
      constructor
      · simp [track, hv, hp]
      · simp [track_command, track, hv, hp, load_state]
    · intro text d c hp
      simp [track, hv, hp]

theorem track_all_or_nothing_witness :
    track emptyState "One Piece" "https://example.com/x" .fetchError =
      (emptyState, .invalidUrl, false) :=
  (((track_all_or_nothing emptyState "One Piece" "https://example.com/x").1
    (by decide)).1 .fetchError)

/-- Claim C6: in every state reachable through the normal operations
from the empty store, every observed key is a currently tracked key;
and `/untrack` leaves no entry for the normalized name in either map —
whether it removed a tracked item (both entries deleted) or found
nothing (in which case the invariant guarantees there was no observed
entry either), no stale observed entry survives. -/
theorem observed_keys_tracked (st : State) (h : Reachable st) :
    (∀ k ∈ alKeys st.latest, k ∈ alKeys st.tracked) ∧
    ∀ name, alGet (normalize_name name) (untrack st name).1.tracked = none ∧
      alGet (normalize_name name) (untrack st name).1.latest = none := by
  have hinv := reachable_inv st h
  refine ⟨hinv.2.2, ?_⟩
  intro name
  rcases hg : alGet (normalize_name name) st.tracked with _ | u
  · have he : (untrack st name).1 = st := by
      simp [untrack, hg]
    rw [he]
    refine ⟨hg, ?_⟩
    rw [alGet_eq_none_iff]
    intro hmem
    have hm2 := hinv.2.2 _ hmem
    rw [alGet_eq_none_iff] at hg
    exact hg hm2
  · have he : (untrack st name).1 =
        ⟨alRemove (normalize_name name) st.tracked,
          alRemove (normalize_name name) st.latest⟩ := by
      simp [untrack, hg]
    rw [he]
    exact ⟨alGet_alRemove_self _ _ hinv.1, alGet_alRemove_self _ _ hinv.2.1⟩

theorem observed_keys_tracked_witness :
    alGet (normalize_name "One Piece")
      (untrack (track emptyState "One Piece"
        "https://www.viz.com/shonenjump/chapters/one-piece"
        (.ok "January 18, 2026 Ch. 1171")).1 "One Piece").1.tracked = none ∧
    alGet (normalize_name "One Piece")
      (untrack (track emptyState "One Piece"
        "https://www.viz.com/shonenjump/chapters/one-piece"
        (.ok "January 18, 2026 Ch. 1171")).1 "One Piece").1.latest = none :=
  (observed_keys_tracked _
    (Reachable.trackStep emptyState "One Piece"
      "https://www.viz.com/shonenjump/chapters/one-piece"
      (.ok "January 18, 2026 Ch. 1171") Reachable.base)).2 "One Piece"

/-- Claim C7: with a resolvable channel and a nonempty tracked map,
and whatever the fetch, notification-send and `save_state` outcomes,
the poll cycle produces exactly one terminal per-item log line per
tracked item, in insertion order — so every later item is processed
whatever raised for earlier ones.  An item whose fetch raises is
logged as `[ERROR] {name}`; an item whose `save_state` raises — on the
baseline path, or on the changed path after a successful send — has
the error caught and logged as `[ERROR] {name}` too, the loop moving
on (with the threaded in-memory dict retaining the mutation that
preceded the failed save, as in the source). -/
theorem poll_isolates_item_failures (st : State)
    (f : String → FetchResult) (n sv : String → Bool) (hne : st.tracked ≠ []) :
    (poll_updates st true f n sv).2.filterMap itemLogName = alKeys st.tracked ∧
    (∀ name url, (name, url) ∈ st.tracked → f url = .fetchError →
      Event.errorLog name ∈ (poll_updates st true f n sv).2) ∧
    (∀ (st2 : State) (name url text d c : String) (b : Bool),
      parse_latest_chapter text = some (d, c) → alGet name st2.latest = none →
      processItem st2 name url (.ok text) b false =
        (⟨st2.tracked, alSet name ⟨d, c, url⟩ st2.latest⟩, [.errorLog name])) ∧
    (∀ (st2 : State) (name url text d c : String) (prev : Observed),
      parse_latest_chapter text = some (d, c) → alGet name st2.latest = some prev →
      ¬(prev.date = d ∧ prev.ch = c) →
      processItem st2 name url (.ok text) true false =
        (⟨st2.tracked, alSet name ⟨d, c, url⟩ st2.latest⟩,
         [.notify name c d url, .errorLog name])) := by
  have hred : poll_updates st true f n sv = pollItems st st.tracked f n sv := by
    simp [poll_updates, hne]
  rw [hred]
  exact ⟨pollItems_logs st.tracked st f n sv,
    fun name url hmem hf => pollItems_error_mem st.tracked st f n sv name url hmem hf,
    fun st2 name url text d c b hp hs =>
      processItem_baseline_saveFailed st2 name url text d c b hp hs,
    fun st2 name url text d c prev hp hs hneq =>
      processItem_changed_saveFailed st2 name url text d c prev hp hs hneq⟩

theorem poll_isolates_item_failures_witness :
    (poll_updates ⟨[("a", "ua"), ("b", "ub")], []⟩ true
        (fun u => if u = "ua" then .fetchError else .ok "March 2, 2024 Ch. 12")
        (fun _ => true) (fun _ => false)).2.filterMap itemLogName = ["a", "b"] := by
  have h := (poll_isolates_item_failures ⟨[("a", "ua"), ("b", "ub")], []⟩
      (fun u => if u = "ua" then .fetchError else .ok "March 2, 2024 Ch. 12")
      (fun _ => true) (fun _ => false) (by decide)).1
  exact h.trans (by decide)

/-- Claim C10: `/untrack` of a name whose normalized form is not in the
tracked map only reports not-found: the in-memory state is returned
untouched, `save_state` is never called, and the command performs no
write to the store. -/
theorem untrack_missing_no_write (st : State) (name : String)
    (h : alGet (normalize_name name) st.tracked = none) :
    untrack st name = (st, .notFound, false) ∧
    untrack_command (.wellFormed st) name = (.ok .notFound, []) := by
  have h1 : untrack st name = (st, .notFound, false) := by
    simp [untrack, h]
  refine ⟨h1, ?_⟩
  simp [untrack_command, load_state, h1]

theorem untrack_missing_no_write_witness :
    untrack emptyState "One Piece" = (emptyState, .notFound, false) :=
  (untrack_missing_no_write emptyState "One Piece" (by decide)).1

/-! ## Normalization lemmas (for the name-key claim) -/

theorem isSpaceA_lowerChar (c : Char) : isSpaceA (lowerChar c) = isSpaceA c := by
  unfold lowerChar
  split <;> rfl

theorem dropWhile_pyLower (l : List Char) :
    (pyLower l).dropWhile isSpaceA = pyLower (l.dropWhile isSpaceA) := by
  induction l with
  | nil => rfl
  | cons c t ih =>
    simp only [pyLower, List.map_cons, List.dropWhile_cons, isSpaceA_lowerChar]
    by_cases h : isSpaceA c
    · simpa [h, pyLower] using ih
    · simp [h, pyLower]

theorem reverse_pyLower (l : List Char) : (pyLower l).reverse = pyLower l.reverse := by
  simp [pyLower, List.map_reverse]

theorem pyStrip_pyLower (l : List Char) : pyStrip (pyLower l) = pyLower (pyStrip l) := by
  unfold pyStrip
  rw [dropWhile_pyLower, reverse_pyLower, dropWhile_pyLower, reverse_pyLower]

theorem pyStrip_append (w1 w2 l : List Char)
    (h1 : ∀ c ∈ w1, isSpaceA c = true) (h2 : ∀ c ∈ w2, isSpaceA c = true) :
    pyStrip (w1 ++ l ++ w2) = pyStrip l := by
  unfold pyStrip
  rw [List.append_assoc, List.dropWhile_append_of_pos h1, List.dropWhile_append]
  by_cases he : (l.dropWhile isSpaceA).isEmpty
  · rw [if_pos he]
    have hw2 : List.dropWhile isSpaceA w2 = [] := by
      have h0 : (w2 ++ ([] : List Char)).dropWhile isSpaceA =
          ([] : List Char).dropWhile isSpaceA := List.dropWhile_append_of_pos h2
      simpa using h0
    rw [List.isEmpty_iff] at he
    rw [hw2, he]
  · rw [if_neg he, List.reverse_append,
      List.dropWhile_append_of_pos (fun c hc => h2 c (List.mem_reverse.mp hc))]

/-! ## Remaining claim theorems -/

/-- Claim C8, counterexample.  "a b" and "a  b" differ only in the
COUNT of interior whitespace characters, and "a b" and "a\tb" only in
the KIND, yet they normalize to different keys: `normalize_name` only
strips the ends, lowercases, and replaces each interior space (U+0020)
by an underscore — it does not collapse or unify interior whitespace. -/
theorem normalize_whitespace_cex :
    normalize_name "a b" ≠ normalize_name "a  b" ∧
    normalize_name "a b" ≠ normalize_name "a\tb" := by
  constructor <;> decide

/-- Claim C8, amended: names that differ only in letter case, or only
in leading/trailing whitespace, normalize to the same key (interior
whitespace is instead preserved character-for-character, with each
space mapped to an underscore, so interior-whitespace variants may get
different keys); and since a dict holds at most one entry per key, a
second Track under an equal-normalizing name overwrites the existing
entry — same map size, new value — rather than creating a duplicate. -/
theorem normalize_insensitivity (s t : String) :
    (pyLower s.data = pyLower t.data → normalize_name s = normalize_name t) ∧
    (∀ w1 w2 : List Char,
      (∀ c ∈ w1, isSpaceA c = true) → (∀ c ∈ w2, isSpaceA c = true) →
      normalize_name (List.asString (w1 ++ s.data ++ w2)) = normalize_name s) ∧
    (∀ (tr : List (String × String)) (url2 : String),
      pyLower s.data = pyLower t.data → alGet (normalize_name s) tr ≠ none →
      alGet (normalize_name s) (alSet (normalize_name t) url2 tr) = some url2 ∧
      (alSet (normalize_name t) url2 tr).length = tr.length) := by
  have hkey : pyLower s.data = pyLower t.data → normalize_name s = normalize_name t := by
    intro h
    unfold normalize_name
    rw [← pyStrip_pyLower, h, pyStrip_pyLower]
  refine ⟨hkey, ?_, ?_⟩
  · intro w1 w2 hw1 hw2
    unfold normalize_name
    show (pyReplaceSpace (pyLower (pyStrip (w1 ++ s.data ++ w2)))).asString = _
    rw [pyStrip_append w1 w2 s.data hw1 hw2]
  · intro tr url2 h hne
    rw [← hkey h]
    exact ⟨alGet_alSet_self _ _ _, length_alSet_of_mem _ _ _ hne⟩

theorem normalize_insensitivity_witness :
    normalize_name "ONE PIECE" = normalize_name "one piece" :=
  (normalize_insensitivity "ONE PIECE" "one piece").1 (by decide)

/-- Claim C9: loading an absent store yields the empty state, while a
corrupt (unparseable) store makes `load_state` raise — the `json.load`
exception propagates, the system does not silently continue with an
assumed-empty state — and the surrounding commands abort with no write
to the store. -/
theorem load_absent_empty_corrupt_raises :
    load_state .absent = .ok emptyState ∧
    load_state .corrupt = .error () ∧
    (∀ name, untrack_command .corrupt name = (.error (), [])) ∧
    (∀ name url fetch, (track_command .corrupt name url fetch).2 = []) := by
  refine ⟨rfl, rfl, fun name => rfl, ?_⟩
  intro name url fetch
  unfold track_command
  repeat' split
  all_goals first
    | rfl
    | simp_all [load_state]
